import Mathlib

/-!
# Verification of the `password_manager_cli` TOTP / password / PIN manager

Shallow embedding of the Go sources (`mfa.go`, `mpin.go`, the password
module, `main.go`) into Lean 4.  Machine integers are modelled as `Nat`
(bytes, 32-bit words reduced `% 2^32`) and `Int` (Go `int`/`int64`,
with Go's truncated division `Int.tdiv`/`Int.tmod`).  Byte strings are
`List Nat`, Go strings are Lean `String`.  Fallible operations return
`Except`/`Option`; a Go runtime panic (integer division by zero) is a
distinguished outcome, not an error value.
-/

namespace PMCli

/-! ## 32-bit word arithmetic (Go `uint32` semantics) -/

/-- Reduce to a 32-bit word. -/
def u32 (x : Nat) : Nat := x % 4294967296

/-- Left rotation of a 32-bit word by `n` bits. -/
def rotl (n x : Nat) : Nat := u32 ((x <<< n) ||| (x >>> (32 - n)))

/-- Big-endian bytes of a 32-bit word (`binary.BigEndian.PutUint32`). -/
def u32be (x : Nat) : List Nat :=
  [(x >>> 24) &&& 255, (x >>> 16) &&& 255, (x >>> 8) &&& 255, x &&& 255]

/-- Big-endian bytes of a 64-bit word (`binary.BigEndian.PutUint64`). -/
def u64be (x : Nat) : List Nat :=
  [(x >>> 56) &&& 255, (x >>> 48) &&& 255, (x >>> 40) &&& 255, (x >>> 32) &&& 255,
   (x >>> 24) &&& 255, (x >>> 16) &&& 255, (x >>> 8) &&& 255, x &&& 255]

/-- Big-endian word from a byte list (`binary.BigEndian.Uint32` when 4 bytes). -/
def beWord (bs : List Nat) : Nat := bs.foldl (fun acc b => acc * 256 + b) 0

/-! ## SHA-1 (`crypto/sha1`), FIPS 180-4 -/

/-- SHA-1 round function `f_t`. -/
def sha1F (t b c d : Nat) : Nat :=
  if t < 20 then (b &&& c) ||| ((b ^^^ 4294967295) &&& d)
  else if t < 40 then (b ^^^ c) ^^^ d
  else if t < 60 then ((b &&& c) ||| (b &&& d)) ||| (c &&& d)
  else (b ^^^ c) ^^^ d

/-- SHA-1 round constant `K_t`. -/
def sha1K (t : Nat) : Nat :=
  if t < 20 then 0x5A827999
  else if t < 40 then 0x6ED9EBA1
  else if t < 60 then 0x8F1BBCDC
  else 0xCA62C1D6

/-- Message-schedule extension: `ws` holds the words produced so far in
reverse order (most recent first); `n` more words are appended via
`W_t = rotl1 (W_{t-3} ^ W_{t-8} ^ W_{t-14} ^ W_{t-16})`. -/
def sha1ExtendRev : Nat → List Nat → List Nat
  | 0, ws => ws
  | n + 1, ws =>
      sha1ExtendRev n
        (rotl 1 (((ws.getD 2 0) ^^^ (ws.getD 7 0)) ^^^ ((ws.getD 13 0) ^^^ (ws.getD 15 0))) :: ws)

/-- The 80-word message schedule of a 64-byte block. -/
def sha1Schedule (block : List Nat) : List Nat :=
  let w16 := (List.range 16).map (fun i => beWord ((block.drop (4 * i)).take 4))
  (sha1ExtendRev 64 w16.reverse).reverse

/-- One SHA-1 round: state `(a,b,c,d,e)`, round index `t`, schedule word `w`. -/
def sha1Round (st : Nat × Nat × Nat × Nat × Nat) (tw : Nat × Nat) : Nat × Nat × Nat × Nat × Nat :=
  match st, tw with
  | (a, b, c, d, e), (t, w) =>
      (u32 (rotl 5 a + sha1F t b c d + e + sha1K t + w), a, rotl 30 b, c, d)

/-- SHA-1 compression of one 64-byte block into the running hash state. -/
def sha1Compress (h : Nat × Nat × Nat × Nat × Nat) (block : List Nat) :
    Nat × Nat × Nat × Nat × Nat :=
  match h with
  | (h0, h1, h2, h3, h4) =>
      match (sha1Schedule block).enum.foldl sha1Round (h0, h1, h2, h3, h4) with
      | (a, b, c, d, e) => (u32 (h0 + a), u32 (h1 + b), u32 (h2 + c), u32 (h3 + d), u32 (h4 + e))

/-- SHA-1 padding: `0x80`, zeros to 56 mod 64, 8-byte big-endian bit length. -/
def sha1Pad (msg : List Nat) : List Nat :=
  let len := msg.length
  let zeros := (120 - (len + 1) % 64) % 64
  msg ++ 128 :: List.replicate zeros 0 ++ u64be (8 * len)

/-- Split a padded message into 64-byte blocks. -/
def sha1Blocks (padded : List Nat) : List (List Nat) :=
  (List.range (padded.length / 64)).map (fun i => (padded.drop (64 * i)).take 64)

/-- The SHA-1 initial hash state. -/
def sha1Init : Nat × Nat × Nat × Nat × Nat :=
  (0x67452301, 0xEFCDAB89, 0x98BADCFE, 0x10325476, 0xC3D2E1F0)

/-- SHA-1 digest (20 bytes) of a byte string. -/
def sha1 (msg : List Nat) : List Nat :=
  match (sha1Blocks (sha1Pad msg)).foldl sha1Compress sha1Init with
  | (h0, h1, h2, h3, h4) => u32be h0 ++ u32be h1 ++ u32be h2 ++ u32be h3 ++ u32be h4

/-! ## HMAC-SHA1 (`crypto/hmac` with `sha1.New`), FIPS 198-1 -/

/-- HMAC-SHA1 of `msg` under `key`: the key is hashed if longer than the
64-byte block, zero-padded to 64 bytes, and combined with the
`0x36`/`0x5c` inner and outer pads. -/
def hmacSha1 (key msg : List Nat) : List Nat :=
  let key1 := if 64 < key.length then sha1 key else key
  let key0 := key1 ++ List.replicate (64 - key1.length) 0
  sha1 ((key0.map (· ^^^ 0x5c)) ++ sha1 ((key0.map (· ^^^ 0x36)) ++ msg))

/-! ## Dynamic truncation and 6-digit formatting (RFC 4226 §5.3) -/

/-- Dynamic truncation: `offset = hash[len-1] & 0x0f`, then the 4 bytes at
`hash[offset..offset+4]` as a big-endian 32-bit value with the top bit
cleared (`& 0x7fffffff`). -/
def dynamicTruncate (hash : List Nat) : Nat :=
  let offset := (hash.getD (hash.length - 1) 0) &&& 0x0f
  (beWord ((hash.drop offset).take 4)) &&& 0x7fffffff

/-- Go `fmt.Sprintf("%06d", n)` for `n < 1000000`: six zero-padded decimal digits. -/
def sixDigits (n : Nat) : String :=
  ⟨[Char.ofNat (48 + n / 100000 % 10), Char.ofNat (48 + n / 10000 % 10),
    Char.ofNat (48 + n / 1000 % 10), Char.ofNat (48 + n / 100 % 10),
    Char.ofNat (48 + n / 10 % 10), Char.ofNat (48 + n % 10)]⟩

/-- The HOTP 6-digit code for a raw key and a counter value: the counter is
serialized as Go's `uint64(counter)` (two's-complement wrap for negative
`int64` values), HMAC-SHA1'd, dynamically truncated and reduced mod 10^6. -/
def hotp6 (key : List Nat) (counter : Int) : String :=
  let buf := u64be (counter.emod 18446744073709551616).toNat
  sixDigits (dynamicTruncate (hmacSha1 key buf) % 1000000)

/-! ## Secret normalizer (`cleanSecret` in `mfa.go`)

Characters are compared by code point, exactly as Go compares runes;
`strings.ToUpper` is modelled by its ASCII case mapping (on the ASCII
inputs the theorems quantify over, Go's Unicode mapping coincides). -/

/-- ASCII uppercase mapping of `strings.ToUpper`. -/
def goToUpperChar (c : Char) : Char :=
  if 97 ≤ c.toNat ∧ c.toNat ≤ 122 then Char.ofNat (c.toNat - 32) else c

/-- The character filter of `cleanSecret`: Base32 alphabet `A`–`Z`, `2`–`7`. -/
def isB32Char (c : Char) : Bool :=
  (65 ≤ c.toNat && c.toNat ≤ 90) || (50 ≤ c.toNat && c.toNat ≤ 55)

/-- The cleaning pass of `cleanSecret`: uppercase every character, keep
only the Base32 alphabet. -/
def cleanData (l : List Char) : List Char := (l.map goToUpperChar).filter isB32Char

/-- The `switch len(result) % 8` padding step of `cleanSecret`. -/
def b32Padding (n : Nat) : List Char :=
  match n % 8 with
  | 2 => ['=', '=', '=', '=', '=', '=']
  | 4 => ['=', '=', '=', '=']
  | 5 => ['=', '=', '=']
  | 7 => ['=']
  | _ => []

/-- Function `cleanSecret`: uppercase, strip non-Base32 characters, pad with `=`. -/
def cleanSecret (s : String) : String :=
  let cleaned := cleanData s.data
  ⟨cleaned ++ b32Padding cleaned.length⟩

/-- The spec's Base32 padding table (§4.1): number of `=` characters per
length remainder mod 8 (remainder 2 → 6, 4 → 4, 5 → 3, 7 → 1, others
→ none). -/
def padTableSpec (r : Nat) : Nat :=
  if r = 2 then 6 else if r = 4 then 4 else if r = 5 then 3 else if r = 7 then 1 else 0

/-- A canonical padded Base32 string: data characters from the strict
alphabet, a valid data-length remainder, then the standard padding. -/
def canonicalPaddedB32 (s : String) : Prop :=
  ∃ d : List Char, (∀ c ∈ d, isB32Char c = true) ∧
    d.length % 8 ≠ 1 ∧ d.length % 8 ≠ 3 ∧ d.length % 8 ≠ 6 ∧
    s.data = d ++ List.replicate (padTableSpec (d.length % 8)) '='

/-! ## Standard Base32 decoding (`encoding/base32` `StdEncoding.DecodeString`) -/

/-- Value of one Base32 alphabet character. -/
def b32Index (c : Char) : Option Nat :=
  if 65 ≤ c.toNat ∧ c.toNat ≤ 90 then some (c.toNat - 65)
  else if 50 ≤ c.toNat ∧ c.toNat ≤ 55 then some (c.toNat - 24)
  else none

/-- Big-endian byte expansion: the `k` bytes of `v` (most significant first). -/
def beBytes : Nat → Nat → List Nat
  | 0, _ => []
  | k + 1, v => ((v >>> (8 * k)) &&& 255) :: beBytes k v

/-- Decode one 8-character Base32 quantum.  The data length before padding
must be one of 2, 4, 5, 7, 8 (Go rejects 0, 1, 3, 6); output is
`dlen*5/8` bytes, surplus low bits discarded. -/
def decodeQuantum (q : List Char) : Option (List Nat) :=
  let dataPart := q.takeWhile (fun c => c ≠ '=')
  let padPart := q.dropWhile (fun c => c ≠ '=')
  if ¬ (padPart.all (fun c => c = '=')) then none
  else
    let dlen := dataPart.length
    if dlen = 0 ∨ dlen = 1 ∨ dlen = 3 ∨ dlen = 6 then none
    else
      match dataPart.mapM b32Index with
      | none => none
      | some vals =>
          let n := vals.foldl (fun acc v => acc * 32 + v) 0
          let nbytes := dlen * 5 / 8
          some (beBytes nbytes (n >>> (dlen * 5 - nbytes * 8)))

/-- Go `base32.StdEncoding.DecodeString`: the input length must be a multiple
of 8, padding may occur only as a suffix, and each 8-character quantum
decodes as above.  `none` models Go's `CorruptInputError`. -/
def base32Decode (s : List Char) : Option (List Nat) :=
  if s.length % 8 ≠ 0 then none
  else if ¬ ((s.dropWhile (fun c => c ≠ '=')).all (fun c => c = '=')) then none
  else
    match ((List.range (s.length / 8)).map (fun i => (s.drop (8 * i)).take 8)).mapM decodeQuantum with
    | none => none
    | some chunks => some chunks.flatten

/-! ## TOTP engine (`generateTOTPWithOffset` in `mfa.go`) -/

/-- Go `counter := now / int64(period)` — Go division truncates toward zero. -/
def totpCounter (now period : Int) : Int := now.tdiv period

/-- Go `remaining := period - int(now % int64(period))` — Go `%` is the
truncated-division remainder. -/
def totpRemaining (now period : Int) : Int := period - now.tmod period

/-- Outcome of the TOTP engine: a returned `(code, remaining)` pair, a
returned error, or a Go runtime panic (integer division by zero). -/
inductive TotpOutcome
  | ok (code : String) (remaining : Int)
  | err
  | panic
deriving DecidableEq, Repr

/-- Function `generateTOTPWithOffset secret period timeOffset unixNow`: clean the
secret, Base32-decode it (failure is the returned error), set
`now = time.Now().Unix() + timeOffset`, derive counter and remaining
validity, HMAC-SHA1 the 8-byte counter and truncate.  The source performs
`now / int64(period)` without validating `period`; a zero period is the
runtime division-by-zero panic, not a returned error. -/
def generateTOTPWithOffset (secret : String) (period timeOffset unixNow : Int) : TotpOutcome :=
  let cleanedSecret := cleanSecret secret
  match base32Decode cleanedSecret.data with
  | none => .err
  | some key =>
      let now := unixNow + timeOffset
      if period = 0 then .panic
      else .ok (hotp6 key (totpCounter now period)) (totpRemaining now period)

/-- Function `generateTOTP secret period` = `generateTOTPWithOffset secret period 0`. -/
def generateTOTP (secret : String) (period unixNow : Int) : TotpOutcome :=
  generateTOTPWithOffset secret period 0 unixNow

/-! ## Credential stores: entries and upsert loops -/

/-- An MFA entry (`mfa.go`). -/
structure MFAEntry where
  account : String
  name : String
  secret : String
  period : Int
deriving DecidableEq, Repr

/-- A password entry. -/
structure PasswordEntry where
  name : String
  account : String
  password : String
  length : Int
  config : String
deriving DecidableEq, Repr

/-- A PIN entry (`mpin.go`). -/
structure MPINEntry where
  name : String
  account : String
  pin : String
deriving DecidableEq, Repr

/-- The shared upsert loop shape: scan for the first entry matching `m`,
replace it via `r` and stop; append `new` if no entry matches. -/
def upsertBy (m : α → Bool) (r : α → α) (new : α) : List α → List α
  | [] => [new]
  | e :: rest => if m e then r e :: rest else e :: upsertBy m r new rest

/-- The `SetupMFA` loop: match on `(account, name)`, replace the whole entry. -/
def upsertMFA (entries : List MFAEntry) (new : MFAEntry) : List MFAEntry :=
  upsertBy (fun e => e.account == new.account && e.name == new.name) (fun _ => new) new entries

/-- The `AddPassword` loop: match on `(name, account)`, replace the whole entry. -/
def upsertPassword (entries : List PasswordEntry) (new : PasswordEntry) : List PasswordEntry :=
  upsertBy (fun e => e.name == new.name && e.account == new.account) (fun _ => new) new entries

/-- The `AddMPIN` loop: match on `(name, account)`; on a match only the
`PIN` field of the stored entry is overwritten (`config.Entries[i].PIN = pin`). -/
def upsertMPIN (entries : List MPINEntry) (name account pin : String) : List MPINEntry :=
  upsertBy (fun e => e.name == name && e.account == account)
    (fun e => { e with pin := pin }) ⟨name, account, pin⟩ entries

/-! ## MFA setup (`SetupMFA` in `mfa.go`)

`SetupMFA` validates the secret by generating a code at the current time
before touching the store; the loaded collection is the `stored`
parameter and the returned list is what `saveMFAStorage` persists. -/

/-- Result of `SetupMFA`: the saved collection, a returned error, or the
runtime panic propagated from the validation call. -/
inductive SetupResult
  | ok (entries : List MFAEntry)
  | err
  | panic
deriving DecidableEq, Repr

/-- Function `SetupMFA account name secret period`, with the clock and the loaded
collection explicit. -/
def SetupMFA (account name secret : String) (period unixNow : Int)
    (stored : List MFAEntry) : SetupResult :=
  match generateTOTP secret period unixNow with
  | .err => .err
  | .panic => .panic
  | .ok _ _ => .ok (upsertMFA stored ⟨account, name, secret, period⟩)

/-! ## PIN generator (`generateMPIN`, `AddMPIN` in `mpin.go`)

The crypto/rand sampler is modelled by a draw stream `draws : Nat → Nat`;
Go's `rand.Int(rand.Reader, big.NewInt(n))` yields a value in `[0, n)`,
modelled as `draws i % n`. -/

/-- Errors of the PIN operations (both are §7 ValidationErrors). -/
inductive MPINError
  | emptyFields
  | badLength
deriving DecidableEq, Repr

/-- Function `generateMPIN`: `length` decimal digits, or an error for `length <= 0`. -/
def generateMPIN (length : Int) (draws : Nat → Nat) : Except MPINError String :=
  if length ≤ 0 then .error .badLength
  else .ok ⟨(List.range length.toNat).map (fun i => Char.ofNat (48 + draws i % 10))⟩

/-- Function `AddMPIN`: validates the identifying fields and the length before the
store is consulted; on success the returned list is what
`saveMPINConfig` persists (an error therefore writes nothing). -/
def AddMPIN (name account : String) (length : Int) (stored : List MPINEntry)
    (draws : Nat → Nat) : Except MPINError (List MPINEntry) :=
  if name = "" ∨ account = "" then .error .emptyFields
  else if length ≤ 0 then .error .badLength
  else
    match generateMPIN length draws with
    | .error e => .error e
    | .ok pin => .ok (upsertMPIN stored name account pin)

/-! ## Password generator (`generatePassword`, `AddPassword`, and the
flag resolution of `handleAddPassword` in `main.go`) -/

/-- Errors of the password operations. -/
inductive PassError
  | emptyFields
  | badLength
  | emptyCharset
deriving DecidableEq, Repr

/-- Lowercase class. -/
def lowerChars : String := "abcdefghijklmnopqrstuvwxyz"

/-- Uppercase class. -/
def upperChars : String := "ABCDEFGHIJKLMNOPQRSTUVWXYZ"

/-- Digit class. -/
def digitChars : String := "0123456789"

/-- The full fallback charset hard-coded in `generatePassword`. -/
def defaultCharset : String :=
  "abcdefghijklmnopqrstuvwxyzABCDEFGHIJKLMNOPQRSTUVWXYZ0123456789!@#$%^&*()_+-=[]\x7b\x7d|;:,.<>?"

/-- The default special-character set hard-coded in `handleAddPassword`. -/
def defaultSpecialChars : String := "!@#$%^&*()_+-=[]\x7b\x7d|;:,.<>?"

/-- The charset assembly of `generatePassword` (flag-guarded class appends). -/
def buildCharset (useSmallAlpha useLargeAlpha useDigits : Bool) (specialChars : String) : String :=
  (if useSmallAlpha then lowerChars else "")
    ++ (if useLargeAlpha then upperChars else "")
    ++ (if useDigits then digitChars else "")
    ++ (if specialChars ≠ "" then specialChars else "")

/-- Function `generatePassword`: reject `length <= 0`; assemble the charset; if it
is empty fall back to the full default charset; sample each position
independently from the charset. -/
def generatePassword (length : Int) (useSmallAlpha useLargeAlpha useDigits : Bool)
    (specialChars : String) (draws : Nat → Nat) : Except PassError String :=
  if length ≤ 0 then .error .badLength
  else
    let charset0 := buildCharset useSmallAlpha useLargeAlpha useDigits specialChars
    let charset := if charset0 = "" then defaultCharset else charset0
    if charset.length = 0 then .error .emptyCharset
    else .ok ⟨(List.range length.toNat).map
      (fun i => charset.data.getD (draws i % charset.data.length) 'a')⟩

/-- The config description `AddPassword` persists, rebuilt from the flags
(`strings.Join(configParts, ", ")`, with an `"all (default)"` fallback). -/
def passwordConfig (useSmallAlpha useLargeAlpha useDigits : Bool) (specialChars : String) : String :=
  let parts := (if useSmallAlpha then ["lowercase"] else [])
    ++ (if useLargeAlpha then ["uppercase"] else [])
    ++ (if useDigits then ["digits"] else [])
    ++ (if specialChars ≠ "" then ["special(" ++ specialChars ++ ")"] else [])
  let config := String.intercalate ", " parts
  if config = "" then "all (default)" else config

/-- Function `AddPassword`: validate the identifying fields, generate the password
(an error here aborts before the store is read), then upsert; the
returned list is what `savePasswordStorage` persists. -/
def AddPassword (name account : String) (length : Int)
    (useSmallAlpha useLargeAlpha useDigits : Bool) (specialChars : String)
    (stored : List PasswordEntry) (draws : Nat → Nat) : Except PassError (List PasswordEntry) :=
  if name = "" ∨ account = "" then .error .emptyFields
  else
    match generatePassword length useSmallAlpha useLargeAlpha useDigits specialChars draws with
    | .error e => .error e
    | .ok password =>
        .ok (upsertPassword stored
          ⟨name, account, password, length,
            passwordConfig useSmallAlpha useLargeAlpha useDigits specialChars⟩)

/-- The flag resolution of `handleAddPassword` (`main.go`): `"default"` is
replaced by the built-in special set, and when no class flag is set and
no special string given, all three class flags are turned on and the
default special set is used. -/
def handleAddPassword (name account : String) (length : Int)
    (smallAlpha largeAlpha useDigits : Bool) (specialChars : String)
    (stored : List PasswordEntry) (draws : Nat → Nat) : Except PassError (List PasswordEntry) :=
  if name = "" ∨ account = "" then .error .emptyFields
  else
    let actualSpecialChars := if specialChars = "default" then defaultSpecialChars else specialChars
    if (!smallAlpha && !largeAlpha && !useDigits) && specialChars = "" then
      AddPassword name account length true true true defaultSpecialChars stored draws
    else
      AddPassword name account length smallAlpha largeAlpha useDigits actualSpecialChars stored draws

/-! ## Store loading (`loadMFAStorage`, `loadPasswordStorage`, `loadMPINConfig`)

The backing file is modelled by its observable state; JSON parsing is a
parameter `parse`, constrained where needed by the facts the theorems use
(Go's `json.Unmarshal` fails on empty input, so any faithful instance has
`parse [] = none`). -/

/-- Observable state of a backing file. -/
inductive FileState
  | absent
  | unreadable
  | present (data : List Nat)

/-- Load failure kinds: the file could not be read, or not parsed. -/
inductive LoadError
  | readFailed
  | parseFailed
deriving DecidableEq, Repr

/-- Function `loadMFAStorage`: missing file → empty collection; unreadable → read
error; explicit `len(data) == 0` check → empty collection; otherwise
`json.Unmarshal`. -/
def loadMFAStorage (fs : FileState) (parse : List Nat → Option (List MFAEntry)) :
    Except LoadError (List MFAEntry) :=
  match fs with
  | .absent => .ok []
  | .unreadable => .error .readFailed
  | .present data =>
      if data.length = 0 then .ok []
      else match parse data with
        | some entries => .ok entries
        | none => .error .parseFailed

/-- Function `loadPasswordStorage`: same shape as `loadMFAStorage`, including the
explicit `len(data) == 0` check. -/
def loadPasswordStorage (fs : FileState) (parse : List Nat → Option (List PasswordEntry)) :
    Except LoadError (List PasswordEntry) :=
  match fs with
  | .absent => .ok []
  | .unreadable => .error .readFailed
  | .present data =>
      if data.length = 0 then .ok []
      else match parse data with
        | some entries => .ok entries
        | none => .error .parseFailed

/-- Function `loadMPINConfig`: missing file → empty collection; unreadable → read
error; otherwise the data goes straight to `json.Unmarshal` — there is no
empty-file check in the source. -/
def loadMPINConfig (fs : FileState) (parse : List Nat → Option (List MPINEntry)) :
    Except LoadError (List MPINEntry) :=
  match fs with
  | .absent => .ok []
  | .unreadable => .error .readFailed
  | .present data =>
      match parse data with
      | some entries => .ok entries
      | none => .error .parseFailed

/-- Go's `[]byte(s)` for an ASCII string: the code points of its characters. -/
def asciiBytes (s : String) : List Nat := s.data.map Char.toNat

/-- Whether the TOTP engine returned a code. -/
def TotpOutcome.isOk : TotpOutcome → Bool
  | .ok _ _ => true
  | _ => false

/-- The composite key of an MFA entry. -/
def mfaKey (e : MFAEntry) : String × String := (e.account, e.name)

/-- The composite key of a password entry. -/
def passKey (e : PasswordEntry) : String × String := (e.name, e.account)

/-- The composite key of a PIN entry. -/
def pinKey (e : MPINEntry) : String × String := (e.name, e.account)

end PMCli

namespace PMCli

set_option maxRecDepth 100000

/-! ## Helper lemmas -/

/-- Every SHA-1 digest has exactly 20 bytes. -/
theorem sha1_length (m : List Nat) : (sha1 m).length = 20 := by
  unfold sha1
  rcases (sha1Blocks (sha1Pad m)).foldl sha1Compress sha1Init with ⟨h0, h1, h2, h3, h4⟩
  simp [u32be]

/-- Every HMAC-SHA1 digest has exactly 20 bytes. -/
theorem hmacSha1_length (key msg : List Nat) : (hmacSha1 key msg).length = 20 := by
  unfold hmacSha1
  exact sha1_length _

/-- Lemma: `b32Padding` agrees with the spec's padding table. -/
theorem b32Padding_eq (n : Nat) :
    b32Padding n = List.replicate (padTableSpec (n % 8)) '=' := by
  have h : n % 8 = 0 ∨ n % 8 = 1 ∨ n % 8 = 2 ∨ n % 8 = 3 ∨ n % 8 = 4 ∨ n % 8 = 5 ∨
      n % 8 = 6 ∨ n % 8 = 7 := by omega
  unfold b32Padding padTableSpec
  rcases h with h | h | h | h | h | h | h | h <;> rw [h] <;> rfl

/-- Base32-alphabet characters are fixed by the uppercase map. -/
theorem goToUpperChar_fix (c : Char) (h : isB32Char c = true) : goToUpperChar c = c := by
  unfold isB32Char at h
  simp only [Bool.or_eq_true, Bool.and_eq_true, decide_eq_true_eq] at h
  unfold goToUpperChar
  split
  next h' => exfalso; omega
  next => rfl

/-- The cleaning pass distributes over append. -/
theorem cleanData_append (x y : List Char) :
    cleanData (x ++ y) = cleanData x ++ cleanData y := by
  simp [cleanData]

/-- The cleaning pass fixes lists of Base32-alphabet characters. -/
theorem cleanData_b32 : ∀ d : List Char, (∀ c ∈ d, isB32Char c = true) → cleanData d = d
  | [], _ => rfl
  | c :: t, h => by
      have hc : isB32Char c = true := h c (by simp)
      have ih := cleanData_b32 t (fun x hx => h x (by simp [hx]))
      simp only [cleanData, List.map_cons, List.filter_cons] at ih ⊢
      rw [goToUpperChar_fix c hc, hc]
      simp [ih]

/-- The cleaning pass erases padding characters. -/
theorem cleanData_pad (n : Nat) : cleanData (List.replicate n '=') = [] := by
  induction n with
  | zero => rfl
  | succ k ih =>
      rw [List.replicate_succ]
      simp only [cleanData, List.map_cons, List.filter_cons] at ih ⊢
      rw [show goToUpperChar '=' = '=' from by decide]
      rw [show isB32Char '=' = false from by decide]
      simpa using ih

/-- Every character produced by the cleaning pass is in the Base32 alphabet. -/
theorem cleanData_elem (l : List Char) : ∀ c ∈ cleanData l, isB32Char c = true :=
  fun _ hc => List.of_mem_filter hc

/-- The character data of a cleaned secret. -/
theorem cleanSecret_data (s : String) :
    (cleanSecret s).data = cleanData s.data ++ b32Padding (cleanData s.data).length := rfl

/-- When no entry matches, the upsert loop appends the new entry. -/
theorem upsertBy_no_match {α : Type} (m : α → Bool) (r : α → α) (new : α) :
    ∀ l : List α, (∀ e ∈ l, m e = false) → upsertBy m r new l = l ++ [new]
  | [], _ => rfl
  | e :: t, h => by
      have he : m e = false := h e (by simp)
      have ih := upsertBy_no_match m r new t (fun x hx => h x (by simp [hx]))
      simp [upsertBy, he, ih]

/-- When the first match sits between `pre` and `post`, the upsert loop
replaces it in place, preserving every other entry and every position. -/
theorem upsertBy_replace {α : Type} (m : α → Bool) (r : α → α) (new : α) :
    ∀ pre : List α, ∀ mid : α, ∀ post : List α, (∀ e ∈ pre, m e = false) → m mid = true →
      upsertBy m r new (pre ++ mid :: post) = pre ++ r mid :: post
  | [], mid, post, _, hmid => by simp [upsertBy, hmid]
  | e :: t, mid, post, hpre, hmid => by
      have he : m e = false := hpre e (by simp)
      have ih := upsertBy_replace m r new t mid post (fun x hx => hpre x (by simp [hx])) hmid
      simp [upsertBy, he, ih]

/-- Every key in an upsert result is a key of the input or the new key. -/
theorem upsertBy_keys {α κ : Type} (k : α → κ) (m : α → Bool) (r : α → α) (new : α)
    (hr : ∀ e, m e = true → k (r e) = k e) :
    ∀ l : List α, ∀ b ∈ upsertBy m r new l, (∃ a ∈ l, k b = k a) ∨ k b = k new
  | [], b, hb => by
      simp only [upsertBy, List.mem_singleton] at hb
      exact Or.inr (hb ▸ rfl)
  | e :: t, b, hb => by
      by_cases hme : m e = true
      · simp only [upsertBy, if_pos hme] at hb
        rcases List.mem_cons.mp hb with hbe | hbt
        · exact Or.inl ⟨e, by simp, hbe ▸ hr e hme⟩
        · exact Or.inl ⟨b, by simp [hbt], rfl⟩
      · simp only [upsertBy, if_neg hme] at hb
        rcases List.mem_cons.mp hb with hbe | hbt
        · exact Or.inl ⟨e, by simp, hbe ▸ rfl⟩
        · rcases upsertBy_keys k m r new hr t b hbt with ⟨a, ha, hk⟩ | hk
          · exact Or.inl ⟨a, by simp [ha], hk⟩
          · exact Or.inr hk

/-- Upserting preserves pairwise-distinct keys. -/
theorem upsertBy_pairwise {α κ : Type} (k : α → κ) (m : α → Bool) (r : α → α) (new : α)
    (hm : ∀ e, m e = true ↔ k e = k new) (hr : ∀ e, m e = true → k (r e) = k e) :
    ∀ l : List α, l.Pairwise (fun a b => k a ≠ k b) →
      (upsertBy m r new l).Pairwise (fun a b => k a ≠ k b)
  | [], _ => List.pairwise_singleton _ _
  | e :: t, h => by
      rcases List.pairwise_cons.mp h with ⟨he, ht⟩
      by_cases hme : m e = true
      · simp only [upsertBy, if_pos hme]
        exact List.pairwise_cons.mpr ⟨fun b hb => (hr e hme) ▸ he b hb, ht⟩
      · simp only [upsertBy, if_neg hme]
        refine List.pairwise_cons.mpr ⟨?_, upsertBy_pairwise k m r new hm hr t ht⟩
        intro b hb
        rcases upsertBy_keys k m r new hr t b hb with ⟨a, ha, hk⟩ | hk
        · exact fun hc => he a ha (hc.trans hk)
        · exact fun hc => hme ((hm e).mpr (hc.trans hk))

/-- The new entry is in the upsert result whenever replacement installs it. -/
theorem upsertBy_new_mem {α : Type} (m : α → Bool) (r : α → α) (new : α)
    (hr : ∀ e, m e = true → r e = new) :
    ∀ l : List α, new ∈ upsertBy m r new l
  | [] => by simp [upsertBy]
  | e :: t => by
      by_cases hme : m e = true
      · simp [upsertBy, if_pos hme, hr e hme]
      · simp only [upsertBy, if_neg hme, List.mem_cons]
        exact Or.inr (upsertBy_new_mem m r new hr t)

/-- Booleanized key mismatch. -/
theorem beq_pair_false (x y u v : String) (h : ¬ (x = u ∧ y = v)) :
    (x == u && y == v) = false := by
  rcases Bool.eq_false_or_eq_true (x == u && y == v) with hb | hb
  · exact absurd (by simpa [Bool.and_eq_true, beq_iff_eq] using hb) h
  · exact hb

/-- Booleanized key match. -/
theorem beq_pair_true (x y u v : String) (h1 : x = u) (h2 : y = v) :
    (x == u && y == v) = true := by simp [h1, h2]

/-- When validation succeeds, `SetupMFA` returns the upserted collection. -/
theorem SetupMFA_eq_upsert (account name secret : String) (period unixNow : Int)
    (stored : List MFAEntry) (hv : (generateTOTP secret period unixNow).isOk = true) :
    SetupMFA account name secret period unixNow stored =
      .ok (upsertMFA stored ⟨account, name, secret, period⟩) := by
  unfold SetupMFA
  cases hgen : generateTOTP secret period unixNow with
  | ok c r => rfl
  | err => rw [hgen] at hv; simp [TotpOutcome.isOk] at hv
  | panic => rw [hgen] at hv; simp [TotpOutcome.isOk] at hv

/-- For a positive length the password generator always succeeds. -/
theorem generatePassword_ok (L : Int) (a A d : Bool) (sp : String) (draws : Nat → Nat)
    (hL : 0 < L) : ∃ pw, generatePassword L a A d sp draws = .ok pw := by
  unfold generatePassword
  rw [if_neg (by omega)]
  by_cases h0 : buildCharset a A d sp = ""
  · rw [h0]
    refine ⟨⟨(List.range L.toNat).map
      (fun i => defaultCharset.data.getD (draws i % defaultCharset.data.length) 'a')⟩, ?_⟩
    simp
    decide
  · have hne : (buildCharset a A d sp).length ≠ 0 := by
      rcases hcs : buildCharset a A d sp with ⟨l⟩
      cases l with
      | nil => exact absurd hcs h0
      | cons c t => simp [String.length]
    refine ⟨⟨(List.range L.toNat).map
      (fun i => (buildCharset a A d sp).data.getD
        (draws i % (buildCharset a A d sp).data.length) 'a')⟩, ?_⟩
    simp [h0, hne]

/-- For a positive length the PIN generator always succeeds. -/
theorem generateMPIN_ok (L : Int) (draws : Nat → Nat) (hL : 0 < L) :
    ∃ pin, generateMPIN L draws = .ok pin := by
  unfold generateMPIN
  rw [if_neg (by omega)]
  exact ⟨_, rfl⟩

/-! ## Claim theorems -/

/-- Claim C1: at the RFC 6238 test vector — key the raw ASCII bytes of
`"12345678901234567890"`, period 30, Unix time 59 — the time counter is
`59 / 30 = 1` (Go truncated division), the dynamically truncated 31-bit
value reduces to the RFC's 8-digit value `94287082`, and the engine's
6-digit output is `"287082"`.  This is the computation `testTOTP`
performs manually with the key bytes, bypassing Base32 normalization. -/
theorem C1_rfc6238_test_vector :
    totpCounter 59 30 = 1 ∧
    dynamicTruncate (hmacSha1 (asciiBytes "12345678901234567890") (u64be 1)) % 100000000 =
      94287082 ∧
    hotp6 (asciiBytes "12345678901234567890") 1 = "287082" := by
  refine ⟨by decide, by decide, by decide⟩

/-- Claim C3: the source never validates the period.  With the valid
secret `"AAAAAAAA"` and period `0`, `generateTOTPWithOffset` reaches the
division `now / int64(period)` and the run ends in the runtime
division-by-zero panic — not in a returned error; with period `-30` it
happily returns a code.  This contradicts the requirement that a
non-positive period be rejected with an explicit error before counter
derivation. -/
theorem C3_period_zero_reaches_division :
    generateTOTPWithOffset "AAAAAAAA" 0 0 59 = .panic ∧
    generateTOTPWithOffset "AAAAAAAA" (-30) 0 59 ≠ .err ∧
    generateTOTPWithOffset "AAAAAAAA" (-30) 0 59 ≠ .panic := by
  refine ⟨by decide, by decide, by decide⟩

/-- Claim C10: for every key and message, the HMAC-SHA1 digest has 20
bytes, the dynamic-truncation offset (low nibble of the last byte) is at
most 15, the 4-byte window therefore ends at index at most 19 and never
exceeds the digest, and the truncated value is below `2^31`, so its
reduction modulo 1000000 handed to the 6-digit formatter is below
1000000. -/
theorem C10_dynamic_truncation_in_bounds (key msg : List Nat) :
    (hmacSha1 key msg).length = 20 ∧
    ((hmacSha1 key msg).getD ((hmacSha1 key msg).length - 1) 0) &&& 0x0f ≤ 15 ∧
    (((hmacSha1 key msg).getD ((hmacSha1 key msg).length - 1) 0) &&& 0x0f) + 4 ≤
      (hmacSha1 key msg).length ∧
    dynamicTruncate (hmacSha1 key msg) < 2 ^ 31 ∧
    dynamicTruncate (hmacSha1 key msg) % 1000000 < 1000000 := by
  have hlen := hmacSha1_length key msg
  have hoff : ((hmacSha1 key msg).getD ((hmacSha1 key msg).length - 1) 0) &&& 0x0f ≤ 15 :=
    Nat.and_le_right
  refine ⟨hlen, hoff, by omega, ?_, Nat.mod_lt _ (by norm_num)⟩
  unfold dynamicTruncate
  exact lt_of_le_of_lt Nat.and_le_right (by norm_num)

/-- Claim C5: every upsert operation — `SetupMFA` on `(account, name)`,
`AddPassword` and `AddMPIN` on `(name, account)` — replaces an existing
entry for the same key at its position, preserving the collection's
size and enumeration order, appends at the end when no entry matches,
and keeps the key tuple unique.  Loading and saving are abstracted:
`stored` is the loaded collection and the `.ok` payload is what the
save writes. -/
theorem C5_upsert_semantics :
    (∀ account name secret : String, ∀ period unixNow : Int, ∀ stored : List MFAEntry,
      (generateTOTP secret period unixNow).isOk = true →
      SetupMFA account name secret period unixNow stored =
          .ok (upsertMFA stored ⟨account, name, secret, period⟩) ∧
        ((∀ e ∈ stored, ¬ (e.account = account ∧ e.name = name)) →
          upsertMFA stored ⟨account, name, secret, period⟩ =
            stored ++ [⟨account, name, secret, period⟩]) ∧
        (∀ pre mid post, stored = pre ++ mid :: post →
          (∀ e ∈ pre, ¬ (e.account = account ∧ e.name = name)) →
          mid.account = account → mid.name = name →
          upsertMFA stored ⟨account, name, secret, period⟩ =
              pre ++ (⟨account, name, secret, period⟩ : MFAEntry) :: post ∧
            (pre ++ (⟨account, name, secret, period⟩ : MFAEntry) :: post).length =
              stored.length) ∧
        (stored.Pairwise (fun x y => mfaKey x ≠ mfaKey y) →
          (upsertMFA stored ⟨account, name, secret, period⟩).Pairwise
            (fun x y => mfaKey x ≠ mfaKey y))) ∧
    (∀ name account : String, ∀ L : Int, ∀ a A d : Bool, ∀ sp : String,
      ∀ stored : List PasswordEntry, ∀ draws : Nat → Nat,
      name ≠ "" → account ≠ "" → 0 < L →
      ∃ pw : String,
        AddPassword name account L a A d sp stored draws =
            .ok (upsertPassword stored ⟨name, account, pw, L, passwordConfig a A d sp⟩) ∧
          ((∀ e ∈ stored, ¬ (e.name = name ∧ e.account = account)) →
            upsertPassword stored ⟨name, account, pw, L, passwordConfig a A d sp⟩ =
              stored ++ [⟨name, account, pw, L, passwordConfig a A d sp⟩]) ∧
          (∀ pre mid post, stored = pre ++ mid :: post →
            (∀ e ∈ pre, ¬ (e.name = name ∧ e.account = account)) →
            mid.name = name → mid.account = account →
            upsertPassword stored ⟨name, account, pw, L, passwordConfig a A d sp⟩ =
                pre ++ (⟨name, account, pw, L, passwordConfig a A d sp⟩ : PasswordEntry) :: post ∧
              (pre ++ (⟨name, account, pw, L, passwordConfig a A d sp⟩ : PasswordEntry)
                :: post).length = stored.length) ∧
          (stored.Pairwise (fun x y => passKey x ≠ passKey y) →
            (upsertPassword stored ⟨name, account, pw, L, passwordConfig a A d sp⟩).Pairwise
              (fun x y => passKey x ≠ passKey y))) ∧
    (∀ name account : String, ∀ L : Int, ∀ stored : List MPINEntry, ∀ draws : Nat → Nat,
      name ≠ "" → account ≠ "" → 0 < L →
      ∃ pin : String,
        AddMPIN name account L stored draws = .ok (upsertMPIN stored name account pin) ∧
          ((∀ e ∈ stored, ¬ (e.name = name ∧ e.account = account)) →
            upsertMPIN stored name account pin = stored ++ [⟨name, account, pin⟩]) ∧
          (∀ pre mid post, stored = pre ++ mid :: post →
            (∀ e ∈ pre, ¬ (e.name = name ∧ e.account = account)) →
            mid.name = name → mid.account = account →
            upsertMPIN stored name account pin =
                pre ++ (⟨name, account, pin⟩ : MPINEntry) :: post ∧
              (pre ++ (⟨name, account, pin⟩ : MPINEntry) :: post).length = stored.length) ∧
          (stored.Pairwise (fun x y => pinKey x ≠ pinKey y) →
            (upsertMPIN stored name account pin).Pairwise
              (fun x y => pinKey x ≠ pinKey y))) := by
  refine ⟨?_, ?_, ?_⟩
  · intro account name secret period unixNow stored hv
    refine ⟨SetupMFA_eq_upsert account name secret period unixNow stored hv, ?_, ?_, ?_⟩
    · intro hno
      exact upsertBy_no_match _ _ _ stored
        (fun e he => beq_pair_false e.account e.name account name (hno e he))
    · intro pre mid post hsplit hpre hmida hmidn
      rw [hsplit]
      refine ⟨upsertBy_replace _ _ _ pre mid post
        (fun e he => beq_pair_false e.account e.name account name (hpre e he))
        (beq_pair_true mid.account mid.name account name hmida hmidn), by simp⟩
    · intro hp
      refine upsertBy_pairwise mfaKey _ _ _ ?_ ?_ stored hp
      · intro e
        simp [mfaKey, Bool.and_eq_true, beq_iff_eq, Prod.ext_iff]
      · intro e hme
        have h2 : e.account = account ∧ e.name = name := by
          simpa [Bool.and_eq_true, beq_iff_eq] using hme
        simp [mfaKey, h2.1, h2.2]
  · intro name account L a A d sp stored draws hname haccount hL
    rcases generatePassword_ok L a A d sp draws hL with ⟨pw, hpw⟩
    refine ⟨pw, ?_, ?_, ?_, ?_⟩
    · unfold AddPassword
      rw [if_neg (by tauto)]
      simp only [hpw]
    · intro hno
      exact upsertBy_no_match _ _ _ stored
        (fun e he => beq_pair_false e.name e.account name account (hno e he))
    · intro pre mid post hsplit hpre hmidn hmida
      rw [hsplit]
      refine ⟨upsertBy_replace _ _ _ pre mid post
        (fun e he => beq_pair_false e.name e.account name account (hpre e he))
        (beq_pair_true mid.name mid.account name account hmidn hmida), by simp⟩
    · intro hp
      refine upsertBy_pairwise passKey _ _ _ ?_ ?_ stored hp
      · intro e
        simp [passKey, Bool.and_eq_true, beq_iff_eq, Prod.ext_iff]
      · intro e hme
        have h2 : e.name = name ∧ e.account = account := by
          simpa [Bool.and_eq_true, beq_iff_eq] using hme
        simp [passKey, h2.1, h2.2]
  · intro name account L stored draws hname haccount hL
    rcases generateMPIN_ok L draws hL with ⟨pin, hpin⟩
    refine ⟨pin, ?_, ?_, ?_, ?_⟩
    · unfold AddMPIN
      rw [if_neg (by tauto), if_neg (by omega)]
      simp only [hpin]
    · intro hno
      exact upsertBy_no_match _ _ _ stored
        (fun e he => beq_pair_false e.name e.account name account (hno e he))
    · intro pre mid post hsplit hpre hmidn hmida
      rw [hsplit]
      have hrep : upsertMPIN (pre ++ mid :: post) name account pin =
          pre ++ ({ mid with pin := pin } : MPINEntry) :: post :=
        upsertBy_replace _ _ _ pre mid post
          (fun e he => beq_pair_false e.name e.account name account (hpre e he))
          (beq_pair_true mid.name mid.account name account hmidn hmida)
      have hmid : ({ mid with pin := pin } : MPINEntry) = ⟨name, account, pin⟩ := by
        cases mid
        simp_all
      exact ⟨hrep.trans (by rw [hmid]), by simp⟩
    · intro hp
      refine upsertBy_pairwise pinKey _ _ _ ?_ ?_ stored hp
      · intro e
        simp [pinKey, Bool.and_eq_true, beq_iff_eq, Prod.ext_iff]
      · intro e hme
        simp [pinKey]

/-- Claim C5 witness: concrete upserts — a replacement that keeps size
and position, and an append — for all three stores at small inputs. -/
theorem C5_upsert_semantics_witness :
    ((generateTOTP "AAAAAAAA" 30 0).isOk = true ∧
      SetupMFA "g" "n" "AAAAAAAA" 30 0 [⟨"g", "n", "OLD", 60⟩] =
        .ok [⟨"g", "n", "AAAAAAAA", 30⟩]) ∧
    (∃ pw : String, AddPassword "n" "a" (1 : Int) false false true "" [] (fun _ => 0) =
      .ok (upsertPassword [] ⟨"n", "a", pw, 1, passwordConfig false false true ""⟩)) ∧
    (∃ pin : String, AddMPIN "n" "a" (1 : Int) [] (fun _ => 0) =
      .ok (upsertMPIN [] "n" "a" pin)) := by
  have hv : (generateTOTP "AAAAAAAA" 30 0).isOk = true := by decide
  have hmfa := (C5_upsert_semantics.1 "g" "n" "AAAAAAAA" 30 0 [⟨"g", "n", "OLD", 60⟩] hv).1
  have hpass := C5_upsert_semantics.2.1 "n" "a" 1 false false true "" [] (fun _ => 0)
    (by decide) (by decide) (by decide)
  have hpin := C5_upsert_semantics.2.2 "n" "a" 1 [] (fun _ => 0)
    (by decide) (by decide) (by decide)
  refine ⟨⟨hv, ?_⟩, ⟨hpass.choose, hpass.choose_spec.1⟩, ⟨hpin.choose, hpin.choose_spec.1⟩⟩
  rw [hmfa]
  rfl

/-- Claim C7: for every name, account and non-positive length, PIN and
password generation fail with a validation error (empty identifying
fields or the non-positive-length check) and return no collection —
the error precedes any save, so the stored collection is untouched. -/
theorem C7_nonpositive_length_rejected
    (name account : String) (L : Int) (a A d : Bool) (sp : String)
    (storedP : List PasswordEntry) (storedM : List MPINEntry)
    (draws drawsP : Nat → Nat) (hL : L ≤ 0) :
    (AddMPIN name account L storedM draws = .error .emptyFields ∨
      AddMPIN name account L storedM draws = .error .badLength) ∧
    (AddPassword name account L a A d sp storedP drawsP = .error .emptyFields ∨
      AddPassword name account L a A d sp storedP drawsP = .error .badLength) := by
  constructor
  · unfold AddMPIN
    by_cases h : name = "" ∨ account = ""
    · rw [if_pos h]
      exact Or.inl rfl
    · rw [if_neg h, if_pos (by omega)]
      exact Or.inr rfl
  · unfold AddPassword
    by_cases h : name = "" ∨ account = ""
    · rw [if_pos h]
      exact Or.inl rfl
    · rw [if_neg h]
      have hgen : generatePassword L a A d sp drawsP = .error .badLength := by
        unfold generatePassword
        rw [if_pos (by omega)]
      simp only [hgen]
      exact Or.inr trivial

/-- Claim C7 witness: length 0 is rejected for both generators. -/
theorem C7_nonpositive_length_rejected_witness :
    (0 : Int) ≤ 0 ∧
    (AddMPIN "x" "y" 0 [] (fun _ => 0) = .error .emptyFields ∨
      AddMPIN "x" "y" 0 [] (fun _ => 0) = .error .badLength) ∧
    (AddPassword "x" "y" 0 true false false "" [] (fun _ => 0) = .error .emptyFields ∨
      AddPassword "x" "y" 0 true false false "" [] (fun _ => 0) = .error .badLength) := by
  have h := C7_nonpositive_length_rejected "x" "y" 0 true false false "" [] [] (fun _ => 0)
    (fun _ => 0) (by decide)
  exact ⟨by decide, h.1, h.2⟩

/-- Claim C8: a request with no class flags and no special characters is
routed by the handler's fallback into the full alphabet exactly once:
the resolved charset is precisely the generator's built-in full default
charset (lowercase + uppercase + digits + the non-empty default special
set, with no duplication), the generation succeeds, every password
character comes from this alphabet, and the persisted config
description names all four classes. -/
theorem C8_default_fallback
    (name account : String) (L : Int) (stored : List PasswordEntry) (draws : Nat → Nat)
    (hname : name ≠ "") (haccount : account ≠ "") (hL : 0 < L) :
    buildCharset true true true defaultSpecialChars = defaultCharset ∧
    passwordConfig true true true defaultSpecialChars =
      "lowercase, uppercase, digits, special(!@#$%^&*()_+-=[]\x7b\x7d|;:,.<>?)" ∧
    ∃ pw : String, ∃ l : List PasswordEntry,
      handleAddPassword name account L false false false "" stored draws = .ok l ∧
      handleAddPassword name account L false false false "" stored draws =
        AddPassword name account L true true true defaultSpecialChars stored draws ∧
      (⟨name, account, pw, L,
        "lowercase, uppercase, digits, special(!@#$%^&*()_+-=[]\x7b\x7d|;:,.<>?)"⟩ :
          PasswordEntry) ∈ l ∧
      pw.data.length = L.toNat ∧
      (∀ c ∈ pw.data, c ∈ defaultCharset.data) := by
  have hbc : buildCharset true true true defaultSpecialChars = defaultCharset := by decide
  have hcfg : passwordConfig true true true defaultSpecialChars =
      "lowercase, uppercase, digits, special(!@#$%^&*()_+-=[]\x7b\x7d|;:,.<>?)" := by decide
  refine ⟨hbc, hcfg, ?_⟩
  have hroute : handleAddPassword name account L false false false "" stored draws =
      AddPassword name account L true true true defaultSpecialChars stored draws := by
    unfold handleAddPassword
    rw [if_neg (by tauto)]
    simp
  have hgen : generatePassword L true true true defaultSpecialChars draws =
      .ok ⟨(List.range L.toNat).map
        (fun i => (buildCharset true true true defaultSpecialChars).data.getD
          (draws i % (buildCharset true true true defaultSpecialChars).data.length) 'a')⟩ := by
    unfold generatePassword
    rw [if_neg (by omega)]
    simp [show buildCharset true true true defaultSpecialChars ≠ "" from by decide,
      show (buildCharset true true true defaultSpecialChars).length ≠ 0 from by decide]
  set pw : String := ⟨(List.range L.toNat).map
    (fun i => (buildCharset true true true defaultSpecialChars).data.getD
      (draws i % (buildCharset true true true defaultSpecialChars).data.length) 'a')⟩ with hpw
  have hadd : AddPassword name account L true true true defaultSpecialChars stored draws =
      .ok (upsertPassword stored
        ⟨name, account, pw, L, passwordConfig true true true defaultSpecialChars⟩) := by
    unfold AddPassword
    rw [if_neg (by tauto)]
    simp only [hgen]
  refine ⟨pw, upsertPassword stored
    ⟨name, account, pw, L, passwordConfig true true true defaultSpecialChars⟩,
    hroute.trans hadd, hroute, ?_, ?_, ?_⟩
  · rw [← hcfg]
    exact upsertBy_new_mem _ _ _ (fun _ _ => rfl) stored
  · simp [hpw]
  · intro c hc
    rw [hpw] at hc
    simp only [String.data, List.mem_map, List.mem_range] at hc
    rcases hc with ⟨i, _, hci⟩
    rw [hbc] at hci
    have hlt : draws i % defaultCharset.data.length < defaultCharset.data.length :=
      Nat.mod_lt _ (by decide)
    rw [List.getD_eq_getElem _ _ hlt] at hci
    exact hci ▸ List.getElem_mem hlt

/-- Claim C8 witness: the fallback scenario at concrete inputs. -/
theorem C8_default_fallback_witness :
    ("n" : String) ≠ "" ∧ ("a" : String) ≠ "" ∧ (0 : Int) < 1 ∧
    buildCharset true true true defaultSpecialChars = defaultCharset ∧
    (∃ pw : String, ∃ l : List PasswordEntry,
      handleAddPassword "n" "a" 1 false false false "" [] (fun _ => 0) = .ok l ∧
      handleAddPassword "n" "a" 1 false false false "" [] (fun _ => 0) =
        AddPassword "n" "a" 1 true true true defaultSpecialChars [] (fun _ => 0) ∧
      (⟨"n", "a", pw, 1,
        "lowercase, uppercase, digits, special(!@#$%^&*()_+-=[]\x7b\x7d|;:,.<>?)"⟩ :
          PasswordEntry) ∈ l ∧
      pw.data.length = (1 : Int).toNat ∧
      (∀ c ∈ pw.data, c ∈ defaultCharset.data)) := by
  have h := C8_default_fallback "n" "a" 1 [] (fun _ => 0)
    (by decide) (by decide) (by decide)
  exact ⟨by decide, by decide, by decide, h.1, h.2.2⟩

/-- Claim C6 counterexample: Go's `json.Unmarshal` rejects empty input
(modelled by instantiating the parse collaborator with a function that
fails on it), so an existing zero-length PIN file is a parse error,
while the MFA and password loaders return the empty collection thanks
to their explicit `len(data) == 0` check — the claimed uniform
empty-file behaviour does not hold for the PIN store. -/
theorem C6_counterexample :
    loadMPINConfig (.present []) (fun _ => (none : Option (List MPINEntry))) =
        .error .parseFailed ∧
    loadMFAStorage (.present []) (fun _ => (none : Option (List MFAEntry))) = .ok [] ∧
    loadPasswordStorage (.present []) (fun _ => (none : Option (List PasswordEntry))) =
      .ok [] := ⟨rfl, rfl, rfl⟩

/-- Claim C6 (amended): all three loaders return the empty collection for
a missing file and a read error for an unreadable one; an existing but
empty file is an empty collection for the MFA and password stores, but
the PIN store hands the empty bytes to the parser and reports a parse
error; unparseable non-empty content is a parse error for all three. -/
theorem C6_load_behaviour
    (parseM : List Nat → Option (List MFAEntry))
    (parseP : List Nat → Option (List PasswordEntry))
    (parsePin : List Nat → Option (List MPINEntry))
    (data : List Nat) :
    loadMFAStorage .absent parseM = .ok [] ∧
    loadPasswordStorage .absent parseP = .ok [] ∧
    loadMPINConfig .absent parsePin = .ok [] ∧
    loadMFAStorage .unreadable parseM = .error .readFailed ∧
    loadPasswordStorage .unreadable parseP = .error .readFailed ∧
    loadMPINConfig .unreadable parsePin = .error .readFailed ∧
    loadMFAStorage (.present []) parseM = .ok [] ∧
    loadPasswordStorage (.present []) parseP = .ok [] ∧
    (parsePin [] = none → loadMPINConfig (.present []) parsePin = .error .parseFailed) ∧
    (data ≠ [] → parseM data = none →
      loadMFAStorage (.present data) parseM = .error .parseFailed) ∧
    (data ≠ [] → parseP data = none →
      loadPasswordStorage (.present data) parseP = .error .parseFailed) ∧
    (parsePin data = none → loadMPINConfig (.present data) parsePin = .error .parseFailed) := by
  refine ⟨rfl, rfl, rfl, rfl, rfl, rfl, rfl, rfl, ?_, ?_, ?_, ?_⟩
  · intro h
    simp [loadMPINConfig, h]
  · intro hne hnone
    simp [loadMFAStorage, List.length_eq_zero, hne, hnone]
  · intro hne hnone
    simp [loadPasswordStorage, List.length_eq_zero, hne, hnone]
  · intro h
    simp [loadMPINConfig, h]

/-- Claim C6 witness: the amended behaviour at a failing parse. -/
theorem C6_load_behaviour_witness :
    loadMPINConfig (.present []) (fun _ => (none : Option (List MPINEntry))) =
        .error .parseFailed ∧
    loadMFAStorage (.present [1]) (fun _ => (none : Option (List MFAEntry))) =
      .error .parseFailed := by
  obtain ⟨_, _, _, _, _, _, _, _, h9, h10, _, _⟩ :=
    C6_load_behaviour (fun _ => (none : Option (List MFAEntry)))
      (fun _ => (none : Option (List PasswordEntry)))
      (fun _ => (none : Option (List MPINEntry))) [1]
  exact ⟨h9 rfl, h10 (by simp) rfl⟩

/-- Claim C2: for every input string, `cleanSecret` returns exactly the
uppercased input with every character outside `A`–`Z`/`2`–`7` removed,
followed by `=` padding according to the filtered length mod 8 per the
standard table (2 → 6, 4 → 4, 5 → 3, 7 → 1, others none); and when the
remainder is 1, 3 or 6 the result stays unpadded, the subsequent Base32
decode fails, and the TOTP engine returns a reported error rather than
crashing. -/
theorem C2_cleanSecret_exact (s : String) :
    (cleanSecret s).data =
      (s.data.map goToUpperChar).filter isB32Char ++
        List.replicate
          (padTableSpec (((s.data.map goToUpperChar).filter isB32Char).length % 8)) '=' ∧
    (((s.data.map goToUpperChar).filter isB32Char).length % 8 = 1 ∨
        ((s.data.map goToUpperChar).filter isB32Char).length % 8 = 3 ∨
        ((s.data.map goToUpperChar).filter isB32Char).length % 8 = 6 →
      base32Decode (cleanSecret s).data = none ∧
      ∀ period timeOffset unixNow,
        generateTOTPWithOffset s period timeOffset unixNow = .err) := by
  have hdata : (cleanSecret s).data =
      cleanData s.data ++ List.replicate (padTableSpec ((cleanData s.data).length % 8)) '=' := by
    rw [cleanSecret_data, b32Padding_eq]
  constructor
  · exact hdata
  · intro hrem
    have h' : (cleanData s.data).length % 8 = 1 ∨ (cleanData s.data).length % 8 = 3 ∨
        (cleanData s.data).length % 8 = 6 := hrem
    have hpad : padTableSpec ((cleanData s.data).length % 8) = 0 := by
      unfold padTableSpec
      rcases h' with h | h | h <;> rw [h] <;> decide
    have hlen : (cleanSecret s).data.length % 8 ≠ 0 := by
      rw [hdata, hpad]
      simp only [List.replicate_zero, List.append_nil]
      omega
    have hdec : base32Decode (cleanSecret s).data = none := by
      unfold base32Decode
      rw [if_pos hlen]
    refine ⟨hdec, fun period timeOffset unixNow => ?_⟩
    unfold generateTOTPWithOffset
    simp only [hdec]

/-- Claim C2 witness: the input `"a"` uppercases to the single data
character `A`, remainder 1, receives no padding, and fails decoding with
a reported error. -/
theorem C2_cleanSecret_exact_witness :
    (cleanSecret "a").data = ['A'] ∧
    base32Decode (cleanSecret "a").data = none ∧
    generateTOTPWithOffset "a" 30 0 59 = .err := by
  have h := C2_cleanSecret_exact "a"
  have h2 := h.2 (by decide)
  exact ⟨by decide, h2.1, h2.2 30 0 59⟩

/-- Claim C9: normalization is idempotent — every canonical padded Base32
string is a fixed point of `cleanSecret`, and for every input at all,
applying `cleanSecret` twice equals applying it once. -/
theorem C9_cleanSecret_idempotent :
    (∀ s : String, canonicalPaddedB32 s → cleanSecret s = s) ∧
    (∀ s : String, cleanSecret (cleanSecret s) = cleanSecret s) := by
  constructor
  · rintro ⟨sdata⟩ ⟨d, hd, _, _, _, hdata⟩
    simp only [String.data] at hdata
    subst hdata
    show cleanSecret ⟨d ++ List.replicate (padTableSpec (d.length % 8)) '='⟩ = _
    unfold cleanSecret
    have hclean : cleanData (d ++ List.replicate (padTableSpec (d.length % 8)) '=') = d := by
      rw [cleanData_append, cleanData_b32 d hd, cleanData_pad, List.append_nil]
    simp only [hclean, b32Padding_eq]
  · intro s
    have hclean : cleanData (cleanSecret s).data = cleanData s.data := by
      rw [cleanSecret_data, cleanData_append, cleanData_b32 _ (cleanData_elem s.data),
        b32Padding_eq, cleanData_pad, List.append_nil]
    show (⟨cleanData (cleanSecret s).data ++
        b32Padding (cleanData (cleanSecret s).data).length⟩ : String) = cleanSecret s
    rw [hclean]
    rfl

/-- Claim C9 witness: the canonical padded string `"MZXW6==="` is a fixed
point, and double application at `"foo bar"` equals single application. -/
theorem C9_cleanSecret_idempotent_witness :
    cleanSecret "MZXW6===" = "MZXW6===" ∧
    cleanSecret (cleanSecret "foo bar") = cleanSecret "foo bar" := by
  constructor
  · exact C9_cleanSecret_idempotent.1 "MZXW6==="
      ⟨['M', 'Z', 'X', 'W', '6'], by decide, by decide, by decide, by decide, by decide⟩
  · exact C9_cleanSecret_idempotent.2 "foo bar"

/-- Claim C4 counterexample: at `now = -1` (reachable through a negative
time offset) and period 30, Go's truncated `%` gives `-1 % 30 = -1`, so
`remaining = 30 - (-1) = 31 > 30`, outside `[1, 30]`; moreover the
counter does not increase when `now` crosses the multiple `0` from `-1`
to `0`. -/
theorem C4_counterexample :
    totpRemaining (-1) 30 = 31 ∧ ¬ totpRemaining (-1) 30 ≤ 30 ∧
    totpCounter (-1) 30 = 0 ∧ totpCounter 0 30 = 0 := by
  refine ⟨by decide, by decide, by decide, by decide⟩

/-- Claim C4 (amended to non-negative times): for every period `p > 0`
and every `now ≥ 0`, `remaining = p - now % p` lies in `[1, p]` and
equals `p` exactly when `now % p = 0`; and the counter `now / p`
increases by exactly 1 when `now + 1` reaches a multiple of `p` and is
unchanged otherwise. -/
theorem C4_remaining_and_counter (p now : Int) (hp : 0 < p) (hnow : 0 ≤ now) :
    1 ≤ totpRemaining now p ∧ totpRemaining now p ≤ p ∧
    (totpRemaining now p = p ↔ now.tmod p = 0) ∧
    (totpCounter (now + 1) p = totpCounter now p + 1 ↔ (now + 1) % p = 0) ∧
    ((now + 1) % p ≠ 0 → totpCounter (now + 1) p = totpCounter now p) := by
  have hp' : (0 : Int) ≤ p := le_of_lt hp
  have hpne : p ≠ 0 := ne_of_gt hp
  have ht : now.tmod p = now % p := Int.tmod_eq_emod hnow hp'
  have htd : now.tdiv p = now / p := Int.tdiv_eq_ediv hnow hp'
  have htd1 : (now + 1).tdiv p = (now + 1) / p := Int.tdiv_eq_ediv (by omega) hp'
  have h0 : 0 ≤ now % p := Int.emod_nonneg now hpne
  have h1 : now % p < p := Int.emod_lt_of_pos now hp
  have hqr : p * (now / p) + now % p = now := Int.ediv_add_emod now p
  constructor
  · unfold totpRemaining; omega
  constructor
  · unfold totpRemaining; omega
  constructor
  · unfold totpRemaining; omega
  · unfold totpCounter
    rw [htd, htd1]
    by_cases hcross : now % p + 1 = p
    · have hsum : now + 1 = p * (now / p + 1) := by
        have : p * (now / p + 1) = p * (now / p) + p := by ring
        omega
      have hdiv : (now + 1) / p = now / p + 1 := by
        rw [hsum, Int.mul_ediv_cancel_left _ hpne]
      have hmod : (now + 1) % p = 0 := by
        rw [hsum]
        exact Int.mul_emod_right p _
      constructor
      · exact ⟨fun _ => hmod, fun _ => hdiv⟩
      · intro hne; exact absurd hmod hne
    · have hsum : now + 1 = (now % p + 1) + p * (now / p) := by omega
      have hdiv : (now + 1) / p = now / p := by
        rw [hsum, Int.add_mul_ediv_left _ _ hpne,
          Int.ediv_eq_zero_of_lt (by omega) (by omega), Int.zero_add]
      have hmod : (now + 1) % p = now % p + 1 := by
        rw [hsum, Int.add_mul_emod_self_left, Int.emod_eq_of_lt (by omega) (by omega)]
      constructor
      · constructor
        · intro h; rw [hdiv] at h; omega
        · intro h; rw [hmod] at h; omega
      · intro _; exact hdiv

/-- Claim C4 witness: the amended bounds at `now = 59`, `p = 30`. -/
theorem C4_remaining_and_counter_witness :
    (0 : Int) < 30 ∧ (0 : Int) ≤ 59 ∧
    (1 ≤ totpRemaining 59 30 ∧ totpRemaining 59 30 ≤ 30 ∧
      (totpRemaining 59 30 = 30 ↔ (59 : Int).tmod 30 = 0) ∧
      (totpCounter 60 30 = totpCounter 59 30 + 1 ↔ (60 : Int) % 30 = 0) ∧
      ((60 : Int) % 30 ≠ 0 → totpCounter 60 30 = totpCounter 59 30)) := by
  refine ⟨by decide, by decide, ?_⟩
  have h := C4_remaining_and_counter 30 59 (by decide) (by decide)
  simpa using h

end PMCli
